import Mathlib

/-!
# Verification of the nimbus-payment-orchestrator core

Shallow embedding of the Go payment-orchestration service
(`internal/model`, `internal/config`, `internal/health/monitor.go`,
`internal/orchestrator/orchestrator.go`, `internal/processor/processor.go`),
together with theorems settling the frozen specification claims.

Modelling conventions:
* Go machine time (`time.Time`, `time.Duration`) is abstracted to `Int`
  ticks; `t.After(cutoff)` becomes `cutoff < t`.  No claim depends on the
  unit of time.
* Go `float64` health scores are modelled as exact rationals (`ℚ`).  Every
  score the code produces is `a / b` with `0 ≤ a ≤ b` and `b` the window
  length; for any window size below `2 ^ 50` the distance between two
  distinct such rationals (or between a score and the thresholds `1/5`,
  `1/2`) is far larger than the double-precision rounding error, so the
  comparisons performed by the Go code coincide with the exact rational
  comparisons.
* Go maps (`map[string][]outcome`, `map[string]PaymentResult`) are modelled
  by association lists resp. by a lookup function; only per-key semantics
  (lookup, overwrite) is used by the code under verification.
* `context.Context` is reduced to its one observable used by the code: the
  cancellation signal; the claims under study concern a signal that stays
  cancelled, so a `Bool` suffices.
-/

namespace Nimbus

/-- `model.ResponseCode` (Go: a string-backed closed enumeration of the
seven outcome codes). -/
inductive ResponseCode where
  | approved
  | softDecline
  | declinedInsufficientFunds
  | declinedFraud
  | processorError
  | timeout
  | rateLimited
  deriving DecidableEq, Repr

/-- The Go string value of a `ResponseCode` (what `%s` prints). -/
def ResponseCode.str : ResponseCode → String
  | .approved => "approved"
  | .softDecline => "soft_decline"
  | .declinedInsufficientFunds => "declined_insufficient_funds"
  | .declinedFraud => "declined_fraud"
  | .processorError => "processor_error"
  | .timeout => "timeout"
  | .rateLimited => "rate_limited"

/-- `model.ResponseCode.IsRetriable` (switch over the four retriable codes). -/
def ResponseCode.IsRetriable : ResponseCode → Bool
  | .softDecline | .processorError | .timeout | .rateLimited => true
  | _ => false

/-- `model.ResponseCode.IsHardDecline` (switch over the two hard declines). -/
def ResponseCode.IsHardDecline : ResponseCode → Bool
  | .declinedInsufficientFunds | .declinedFraud => true
  | _ => false

/-- `model.PaymentStatus`.  The Go type is a string; its zero value `""`
(the state of a `PaymentResult` before any status assignment) is modelled
by the explicit constructor `unset`. -/
inductive PaymentStatus where
  | unset
  | approved
  | declined
  | exhaustedRetries
  deriving DecidableEq, Repr

/-- `model.PaymentRequest`. -/
structure PaymentRequest where
  transactionID : String
  amount : ℚ
  currency : String
  paymentMethod : String
  customerID : String

/-- `model.ProcessorResponse` (timestamps and latencies as abstract ticks). -/
structure ProcessorResponse where
  processorName : String
  code : ResponseCode
  message : String
  timestamp : Int
  latency : Int
  deriving DecidableEq, Repr

/-- `model.Attempt`. -/
structure Attempt where
  processorName : String
  response : ProcessorResponse
  routingReason : String
  attemptNumber : Nat
  timestamp : Int
  deriving DecidableEq, Repr

/-- `model.PaymentResult`. -/
structure PaymentResult where
  transactionID : String
  status : PaymentStatus
  attempts : List Attempt
  finalResponse : Option ProcessorResponse
  deriving DecidableEq, Repr

/-- `context.Context`, reduced to the cancellation signal the code observes. -/
structure Ctx where
  cancelled : Bool

/-- The `processor.Processor` interface: a name, the supported methods and
the `Process` operation (which, per the contract, always returns a
response). -/
structure Processor where
  name : String
  supportedMethods : List String
  process : Ctx → PaymentRequest → ProcessorResponse

/-- `processor.SupportsMethod`: linear scan for an equal method tag. -/
def SupportsMethod (p : Processor) (method : String) : Bool :=
  p.supportedMethods.any (fun m => m == method)

namespace config

/-- `config.MaxRetries`. -/
def MaxRetries : Nat := 3

/-- `config.HealthWindowSize`. -/
def HealthWindowSize : Nat := 50

/-- `config.HealthWindowDurationMinutes` (the monitor stores it multiplied
by `time.Minute`; units are abstracted, see the module docstring). -/
def HealthWindowDurationMinutes : Int := 10

/-- `config.DegradedThreshold` (Go constant `0.5`, exactly representable). -/
def DegradedThreshold : ℚ := 1/2

/-- `config.CircuitBreakerThreshold` (Go constant `0.2`; the rational
model is exact for every comparison the code performs, see the module
docstring). -/
def CircuitBreakerThreshold : ℚ := 1/5

end config

/-- `health.Status`.  Go constant `StatusOpen` has string value
`"circuit_open"`; it is named `circuitOpen` here because `open` is a Lean
keyword. -/
inductive Status where
  | healthy
  | degraded
  | circuitOpen
  deriving DecidableEq, Repr

/-- `health.outcome`: one recorded transaction outcome. -/
structure Outcome where
  approved : Bool
  timestamp : Int
  deriving DecidableEq, Repr

/-- `health.ProcessorHealth`. -/
structure ProcessorHealth where
  processorName : String
  healthScore : ℚ
  status : Status
  totalRecent : Nat
  approvedCount : Nat
  errorCount : Nat
  lastUpdated : Int
  deriving DecidableEq, Repr

/-- `health.Monitor`: the per-processor windows (Go `map[string][]outcome`,
modelled as an association list) plus the window configuration. -/
structure Monitor where
  windows : List (String × List Outcome)
  windowSize : Nat
  windowDuration : Int

/-- Reading `m.windows[processorName]`: a missing key yields the zero
value `nil` (the empty window). -/
def Monitor.lookupWindow (m : Monitor) (processorName : String) : List Outcome :=
  match m.windows.find? (fun p => p.1 == processorName) with
  | some p => p.2
  | none => []

/-- Writing `m.windows[processorName] = w` (Go map assignment: replace the
binding or add it). -/
def updateWindows (ws : List (String × List Outcome)) (processorName : String)
    (w : List Outcome) : List (String × List Outcome) :=
  match ws with
  | [] => [(processorName, w)]
  | p :: rest =>
      if p.1 == processorName then (processorName, w) :: rest
      else p :: updateWindows rest processorName w

/-- The age-filter-then-truncate body shared by `pruneWindow` and
`getActiveWindow`: drop entries not strictly younger than the cutoff, then
keep only the most recent `size` entries (Go `active[len(active)-size:]`). -/
def pruneList (w : List Outcome) (cutoff : Int) (size : Nat) : List Outcome :=
  let active := w.filter (fun o => cutoff < o.timestamp)
  if size < active.length then active.drop (active.length - size) else active

/-- `health.NewMonitor`. -/
def NewMonitor : Monitor :=
  { windows := []
    windowSize := config.HealthWindowSize
    windowDuration := config.HealthWindowDurationMinutes * 60 }

/-- `health.NewMonitorWithConfig`. -/
def NewMonitorWithConfig (windowSize : Nat) (windowDuration : Int) : Monitor :=
  { windows := [], windowSize := windowSize, windowDuration := windowDuration }

/-- `Monitor.pruneWindow` (called under the write lock): re-store the
pruned window for `processorName`. -/
def Monitor.pruneWindow (m : Monitor) (processorName : String) (now : Int) : Monitor :=
  { m with
    windows := updateWindows m.windows processorName
      (pruneList (m.lookupWindow processorName) (now - m.windowDuration) m.windowSize) }

/-- `Monitor.RecordOutcome`: append `(approved = code == approved, now)`
to the named window, then prune in place.  `now` stands for the
`time.Now()` call inside the method. -/
def Monitor.RecordOutcome (m : Monitor) (processorName : String)
    (code : ResponseCode) (now : Int) : Monitor :=
  let approved := code == ResponseCode.approved
  let m1 : Monitor :=
    { m with
      windows := updateWindows m.windows processorName
        (m.lookupWindow processorName ++ [⟨approved, now⟩]) }
  m1.pruneWindow processorName now

/-- `Monitor.getActiveWindow`: the entries younger than the window
duration, truncated to the most recent `windowSize`; computed on a fresh
slice, the stored window is not touched. -/
def Monitor.getActiveWindow (m : Monitor) (processorName : String) (now : Int) :
    List Outcome :=
  let window := m.lookupWindow processorName
  if window.length = 0 then []
  else pruneList window (now - m.windowDuration) m.windowSize

/-- The status assignment of `GetHealth` (Go: start from `StatusHealthy`,
overwrite with `StatusOpen` below the circuit-breaker threshold, else with
`StatusDegraded` below the degraded threshold). -/
def statusOf (score : ℚ) : Status :=
  if score < config.CircuitBreakerThreshold then Status.circuitOpen
  else if score < config.DegradedThreshold then Status.degraded
  else Status.healthy

/-- `Monitor.GetHealth`: derive a fresh snapshot over the active window.
The `approved`/`errors` counters mirror the Go counting loop as a fold. -/
def Monitor.GetHealth (m : Monitor) (processorName : String) (now : Int) :
    ProcessorHealth :=
  let window := m.getActiveWindow processorName now
  if window.length = 0 then
    { processorName := processorName
      healthScore := 1
      status := Status.healthy
      totalRecent := 0
      approvedCount := 0
      errorCount := 0
      lastUpdated := now }
  else
    let counts := window.foldl
      (fun (ae : Nat × Nat) o => if o.approved then (ae.1 + 1, ae.2) else (ae.1, ae.2 + 1))
      (0, 0)
    let approved := counts.1
    let errors := counts.2
    let total := window.length
    let score : ℚ := (approved : ℚ) / (total : ℚ)
    { processorName := processorName
      healthScore := score
      status := statusOf score
      totalRecent := total
      approvedCount := approved
      errorCount := errors
      lastUpdated := now }

/-- `Monitor.GetAllHealth`: a snapshot for every name ever recorded (the
Go map iteration order is unspecified; the association-list order stands
in for it, which no claim depends on). -/
def Monitor.GetAllHealth (m : Monitor) (now : Int) : List ProcessorHealth :=
  (m.windows.map (fun p => p.1)).map (fun name => m.GetHealth name now)

/-- `Monitor.IsCircuitOpen`. -/
def Monitor.IsCircuitOpen (m : Monitor) (processorName : String) (now : Int) : Bool :=
  (m.GetHealth processorName now).status == Status.circuitOpen

/-- Round a nonnegative rational to the nearest integer, exact halves to
the even neighbour (the rounding Go's `strconv` applies to an exactly
representable halfway value). -/
def roundHalfEven (q : ℚ) : Int :=
  let f := q.floor
  let frac := q - (f : ℚ)
  if frac < 1/2 then f
  else if 1/2 < frac then f + 1
  else if f % 2 = 0 then f else f + 1

/-- `fmt.Sprintf("%.2f", score)` for the health scores (nonnegative
rationals).  Go formats the IEEE double nearest to the score; for scores
`a / b` whose third decimal digit is an exact 5 and whose denominator is
not a power of two, the direction of the double rounding can differ from
the exact-rational tie — no claim depends on those digits, only on the
literal text surrounding them. -/
def fmt2dp (q : ℚ) : String :=
  let n := roundHalfEven (q * 100)
  let intPart := n / 100
  let cents := n % 100
  toString intPart ++ "." ++
    (if cents < 10 then "0" ++ toString cents else toString cents)

/-- One step of Go's `insertionSortCmpFunc` inner loop on a sorted run:
the new element moves left past exactly those elements it is strictly
`less` than, i.e. it is inserted in front of the first element it is
strictly `less` than. -/
def goOrderedInsert (less : α → α → Bool) (x : α) : List α → List α
  | [] => [x]
  | y :: ys => if less x y then x :: y :: ys else y :: goOrderedInsert less x ys

/-- Go's `insertionSortCmpFunc`: elements are taken left to right and each
is inserted into the already-sorted run to its left. -/
def goInsertionSort (less : α → α → Bool) (l : List α) : List α :=
  l.foldl (fun acc x => goOrderedInsert less x acc) []

/-- Go's `sort.Slice`: pattern-defeating quicksort, which for slices of
length at most `maxInsertion = 12` performs a single insertion sort — the
only path this repository exercises (its processor pool has 4 entries).
Longer slices are outside the embedding and returned unchanged. -/
def sortSlice (less : α → α → Bool) (l : List α) : List α :=
  if l.length ≤ 12 then goInsertionSort less l else l

/-- `orchestrator.eligibleProcessor`. -/
structure eligibleProcessor where
  proc : Processor
  healthScore : ℚ
  status : Status

/-- The comparator closure passed to `sort.Slice` in
`getEligibleProcessors`: `eligible[i].healthScore > eligible[j].healthScore`. -/
def lessByHealth (a b : eligibleProcessor) : Bool :=
  decide (b.healthScore < a.healthScore)

/-- The filtering loop of `getEligibleProcessors`: keep processors that
support the method, read their health, and skip circuit-open ones. -/
def eligibleUnsorted (processors : List Processor) (m : Monitor) (now : Int)
    (paymentMethod : String) : List eligibleProcessor :=
  processors.filterMap (fun p =>
    if !SupportsMethod p paymentMethod then none
    else
      let h := m.GetHealth p.name now
      if h.status = Status.circuitOpen then none
      else some ⟨p, h.healthScore, h.status⟩)

/-- `Orchestrator.getEligibleProcessors`: filter, then sort by health
score descending via `sort.Slice`. -/
def getEligibleProcessors (processors : List Processor) (m : Monitor) (now : Int)
    (paymentMethod : String) : List eligibleProcessor :=
  sortSlice lessByHealth (eligibleUnsorted processors m now paymentMethod)

/-- `Orchestrator.buildRoutingReason`.  On later attempts the Go code
indexes `result.Attempts[len(result.Attempts)-1]`; the `getLast?` default
branch stands for the panic on an empty slice, a state the retry loop
never reaches (attempt number `n ≥ 2` implies `n - 1 ≥ 1` prior attempts). -/
def buildRoutingReason (ep : eligibleProcessor) (attemptNum : Nat)
    (result : PaymentResult) : String :=
  if attemptNum = 1 then
    if ep.status = Status.degraded then
      "primary (degraded): health score " ++ fmt2dp ep.healthScore
    else
      "primary: highest health score " ++ fmt2dp ep.healthScore
  else
    match result.attempts.getLast? with
    | none => ""
    | some prevAttempt =>
        let reason := "fallback: " ++ prevAttempt.processorName ++ " returned "
          ++ prevAttempt.response.code.str
        if ep.status = Status.degraded then
          reason ++ " (degraded: health " ++ fmt2dp ep.healthScore ++ ")"
        else reason

/-- `orchestrator.PaymentStore`: a map from transaction id to result
(lookup-or-absent semantics of the Go map). -/
structure PaymentStore where
  results : String → Option PaymentResult

/-- `orchestrator.NewPaymentStore`. -/
def NewPaymentStore : PaymentStore := ⟨fun _ => none⟩

/-- `PaymentStore.Save`: Go map assignment, last writer wins per
transaction id. -/
def PaymentStore.Save (s : PaymentStore) (result : PaymentResult) : PaymentStore :=
  ⟨fun id => if id = result.transactionID then some result else s.results id⟩

/-- `PaymentStore.Get`: `r, ok := s.results[txnID]` modelled as an option. -/
def PaymentStore.Get (s : PaymentStore) (txnID : String) : Option PaymentResult :=
  s.results txnID

/-- `orchestrator.Orchestrator`. -/
structure Orchestrator where
  processors : List Processor
  monitor : Monitor
  store : PaymentStore
  maxRetries : Nat

/-- `orchestrator.New`. -/
def Orchestrator.New (processors : List Processor) (monitor : Monitor) : Orchestrator :=
  { processors := processors
    monitor := monitor
    store := NewPaymentStore
    maxRetries := config.MaxRetries }

/-- The code after the retry loop (`retries_exhausted`): set the status
and, when any attempt occurred, the final response from the last attempt. -/
def exhaust (result : PaymentResult) : PaymentResult :=
  let r := { result with status := PaymentStatus.exhaustedRetries }
  match result.attempts.getLast? with
  | some lastAttempt => { r with finalResponse := some lastAttempt.response }
  | none => r

/-- The `Attempt` record built in one iteration of the retry loop, after
the counter was incremented to `attemptNum + 1`: the routing reason is
computed from the result *before* the attempt is appended, then the
processor is invoked. -/
def attemptOf (ctx : Ctx) (req : PaymentRequest) (now : Int) (ep : eligibleProcessor)
    (attemptNum : Nat) (result : PaymentResult) : Attempt :=
  { processorName := ep.proc.name
    response := ep.proc.process ctx req
    routingReason := buildRoutingReason ep (attemptNum + 1) result
    attemptNumber := attemptNum + 1
    timestamp := now }

/-- The body of `ProcessPayment`'s `for _, ep := range eligible` loop,
threading the attempt counter, the result under construction and the
monitor.  Note the loop head checks only the retry cap — the cancellation
signal in `ctx` is never consulted by the orchestrator itself, it is only
forwarded to `Process`. -/
def processLoop (ctx : Ctx) (req : PaymentRequest) (now : Int) (maxRetries : Nat) :
    List eligibleProcessor → Nat → PaymentResult → Monitor → PaymentResult × Monitor
  | [], _, result, mon => (exhaust result, mon)
  | ep :: rest, attemptNum, result, mon =>
    if maxRetries ≤ attemptNum then (exhaust result, mon)
    else
      let attempt := attemptOf ctx req now ep attemptNum result
      let resp := attempt.response
      let result' := { result with attempts := result.attempts ++ [attempt] }
      let mon' := mon.RecordOutcome ep.proc.name resp.code now
      if resp.code = ResponseCode.approved then
        ({ result' with status := PaymentStatus.approved, finalResponse := some resp },
          mon')
      else if resp.code.IsHardDecline then
        ({ result' with status := PaymentStatus.declined, finalResponse := some resp },
          mon')
      else processLoop ctx req now maxRetries rest (attemptNum + 1) result' mon'

/-- `Orchestrator.ProcessPayment`.  Every Go return path saves exactly the
result it returns, so the save is applied once to the returned result.
`now` stands for the `time.Now()` calls during the request. -/
def Orchestrator.ProcessPayment (o : Orchestrator) (ctx : Ctx) (req : PaymentRequest)
    (now : Int) : PaymentResult × Orchestrator :=
  let result0 : PaymentResult :=
    { transactionID := req.transactionID
      status := PaymentStatus.unset
      attempts := []
      finalResponse := none }
  let eligible := getEligibleProcessors o.processors o.monitor now req.paymentMethod
  if eligible.length = 0 then
    let result := { result0 with status := PaymentStatus.declined }
    (result, { o with store := o.store.Save result })
  else
    let step := processLoop ctx req now o.maxRetries eligible 0 result0 o.monitor
    (step.1, { o with monitor := step.2, store := o.store.Save step.1 })

/-- `Orchestrator.GetPaymentHistory`. -/
def Orchestrator.GetPaymentHistory (o : Orchestrator) (txnID : String) :
    Option PaymentResult :=
  o.store.Get txnID

/-! ## Monitor read operations in state-passing form (for the frame claim) -/

/-- One read-only monitor call. -/
inductive ReadOp where
  | getHealth (processorName : String) (now : Int)
  | getAllHealth (now : Int)
  | isCircuitOpen (processorName : String) (now : Int)

/-- The value a read-only monitor call returns. -/
inductive ReadValue where
  | health (h : ProcessorHealth)
  | healthList (hs : List ProcessorHealth)
  | flag (b : Bool)

/-- State-passing form of the three read operations: each returns its
value together with the monitor as the method body leaves it.  The Go
bodies assign to no field of `m` — `getActiveWindow` copies the matching
entries into a fresh slice — so the state component is the incoming
monitor. -/
def Monitor.readStep (m : Monitor) : ReadOp → ReadValue × Monitor
  | .getHealth name now => (ReadValue.health (m.GetHealth name now), m)
  | .getAllHealth now => (ReadValue.healthList (m.GetAllHealth now), m)
  | .isCircuitOpen name now => (ReadValue.flag (m.IsCircuitOpen name now), m)

/-- Running a sequence of read-only calls, keeping only the state. -/
def Monitor.readAll (m : Monitor) (ops : List ReadOp) : Monitor :=
  ops.foldl (fun st op => (st.readStep op).2) m

/-! ## Test fixtures (mirroring the repository's deterministic test
processors and the mock's cancellation branch) -/

/-- `deterministicProcessor` from `orchestrator_test.go`: always the same
response code. -/
def deterministicProcessor (name : String) (methods : List String)
    (code : ResponseCode) : Processor :=
  ⟨name, methods, fun _ _ => ⟨name, code, "test response", 0, 10⟩⟩

/-- A processor with the mock's `Process` cancellation behaviour
(`mock.go`): a cancelled context yields a `timeout` response, otherwise
the configured code. -/
def cancelAwareProcessor (name : String) (methods : List String)
    (code : ResponseCode) : Processor :=
  ⟨name, methods, fun ctx _ =>
    if ctx.cancelled then ⟨name, ResponseCode.timeout, "context cancelled", 0, 0⟩
    else ⟨name, code, "test response", 0, 10⟩⟩

/-- The reference pool's names and supported methods (`part_001`:
PayFlow, CardMax, PixPay, GlobalPay), with deterministic approval in
place of the mock's random draw. -/
def refPool : List Processor :=
  [ deterministicProcessor "PayFlow" ["card", "pix", "oxxo", "pse"] ResponseCode.approved
  , deterministicProcessor "CardMax" ["card", "oxxo"] ResponseCode.approved
  , deterministicProcessor "PixPay" ["card", "pix"] ResponseCode.approved
  , deterministicProcessor "GlobalPay" ["card", "pix", "oxxo", "pse"] ResponseCode.approved ]

/-- A request fixture. -/
def reqCard : PaymentRequest :=
  { transactionID := "tx-1", amount := 100, currency := "USD"
    paymentMethod := "card", customerID := "cust-1" }

/-- A 10-outcome window with 5 approvals: score exactly `1/2`. -/
def monitorHalf : Monitor :=
  { windows := [("P",
      (List.replicate 5 (⟨true, 1⟩ : Outcome) ++ List.replicate 5 (⟨false, 1⟩ : Outcome)))]
    windowSize := 50
    windowDuration := 600 }

/-- A 5-outcome window with 1 approval: score exactly `1/5`. -/
def monitorFifth : Monitor :=
  { windows := [("P", (⟨true, 1⟩ : Outcome) :: List.replicate 4 (⟨false, 1⟩ : Outcome))]
    windowSize := 50
    windowDuration := 600 }

/-! ## Helper lemmas -/

theorem exhaust_attempts (r : PaymentResult) : (exhaust r).attempts = r.attempts := by
  unfold exhaust
  cases r.attempts.getLast? <;> rfl

theorem exhaust_status (r : PaymentResult) :
    (exhaust r).status = PaymentStatus.exhaustedRetries := by
  unfold exhaust
  cases r.attempts.getLast? <;> rfl

theorem exhaust_transactionID (r : PaymentResult) :
    (exhaust r).transactionID = r.transactionID := by
  unfold exhaust
  cases r.attempts.getLast? <;> rfl

theorem exhaust_finalResponse (r : PaymentResult) :
    (exhaust r).finalResponse =
      match r.attempts.getLast? with
      | some a => some a.response
      | none => r.finalResponse := by
  unfold exhaust
  cases r.attempts.getLast? <;> rfl

theorem save_get (s : PaymentStore) (r : PaymentResult) (id : String) :
    (s.Save r).Get id = if id = r.transactionID then some r else s.Get id := rfl

theorem readStep_state (m : Monitor) (op : ReadOp) : (m.readStep op).2 = m := by
  cases op <;> rfl

theorem find_updateWindows (ws : List (String × List Outcome)) (name : String)
    (w : List Outcome) :
    (updateWindows ws name w).find? (fun p => p.1 == name) = some (name, w) := by
  induction ws with
  | nil => simp [updateWindows, List.find?]
  | cons p rest ih =>
      by_cases h : p.1 == name
      · simp [updateWindows, h, List.find?]
      · simp only [updateWindows, h, if_neg, Bool.false_eq_true, not_false_eq_true,
          List.find?_cons_of_neg, ih]

theorem lookup_after_update (ws : List (String × List Outcome)) (name : String)
    (w : List Outcome) (s : Nat) (d : Int) :
    Monitor.lookupWindow ⟨updateWindows ws name w, s, d⟩ name = w := by
  unfold Monitor.lookupWindow
  rw [find_updateWindows]

theorem countLoop_eq (w : List Outcome) (a e : Nat) :
    w.foldl
      (fun (ae : Nat × Nat) o => if o.approved then (ae.1 + 1, ae.2) else (ae.1, ae.2 + 1))
      (a, e)
    = (a + w.countP (fun o => o.approved), e + w.countP (fun o => !o.approved)) := by
  induction w generalizing a e with
  | nil => simp
  | cons o w ih =>
      cases h : o.approved <;>
        simp [List.countP_cons, h, ih] <;> omega

/-- C9 — the Payment Store round trip: a `Save` is visible to a
subsequent `Get` of the same transaction id and leaves every other id
untouched (last-writer-wins per identifier). -/
theorem store_save_then_get (s : PaymentStore) (r : PaymentResult) :
    (s.Save r).Get r.transactionID = some r
    ∧ ∀ id : String,
        (s.Save r).Get id = if id = r.transactionID then some r else s.Get id := by
  refine ⟨?_, fun id => save_get s r id⟩
  rw [save_get]
  simp

/-- C10 — monitor reads are effect-free: any sequence of `GetHealth`,
`GetAllHealth` and `IsCircuitOpen` calls with no intervening
`RecordOutcome` leaves the stored per-processor windows (indeed the whole
monitor state) unchanged. -/
theorem monitor_reads_pure (m : Monitor) (ops : List ReadOp) :
    (m.readAll ops).windows = m.windows ∧ m.readAll ops = m := by
  have h : m.readAll ops = m := by
    induction ops generalizing m with
    | nil => rfl
    | cons op rest ih =>
        show Monitor.readAll (m.readStep op).2 rest = m
        rw [readStep_state, ih]
  exact ⟨by rw [h], h⟩

/-- C10 witness: a concrete mixed read sequence on a concrete monitor. -/
theorem monitor_reads_pure_witness :
    (monitorHalf.readAll
      [ReadOp.getHealth "P" 30, ReadOp.getAllHealth 30, ReadOp.isCircuitOpen "Q" 30,
        ReadOp.getHealth "Q" 30]).windows = monitorHalf.windows :=
  (monitor_reads_pure monitorHalf
    [ReadOp.getHealth "P" 30, ReadOp.getAllHealth 30, ReadOp.isCircuitOpen "Q" 30,
      ReadOp.getHealth "Q" 30]).1

/-- C4 — `GetHealth` postcondition: over a non-empty active window
(entries younger than the window duration, truncated to the most recent
`windowSize`, which `NewMonitor` sets to 50) the score is approvals
divided by total, where an entry is an approval exactly when the code
recorded for it was `approved` (every other code was recorded as a
failure); an empty or fully expired window yields the optimistic snapshot
score 1, healthy, zero counts. -/
theorem getHealth_score_spec (m : Monitor) (name : String) (now : Int) :
    (m.getActiveWindow name now ≠ [] →
      (m.GetHealth name now).healthScore
          = ((m.getActiveWindow name now).countP (fun o => o.approved) : ℚ)
            / ((m.getActiveWindow name now).length : ℚ)
        ∧ (m.GetHealth name now).totalRecent = (m.getActiveWindow name now).length
        ∧ (m.GetHealth name now).approvedCount
            = (m.getActiveWindow name now).countP (fun o => o.approved)
        ∧ (m.GetHealth name now).errorCount
            = (m.getActiveWindow name now).countP (fun o => !o.approved))
    ∧ (m.getActiveWindow name now = [] →
        (m.GetHealth name now).healthScore = 1
        ∧ (m.GetHealth name now).status = Status.healthy
        ∧ (m.GetHealth name now).totalRecent = 0
        ∧ (m.GetHealth name now).approvedCount = 0
        ∧ (m.GetHealth name now).errorCount = 0)
    ∧ (∀ code : ResponseCode,
        (m.RecordOutcome name code now).lookupWindow name
          = pruneList (m.lookupWindow name ++ [⟨code == ResponseCode.approved, now⟩])
              (now - m.windowDuration) m.windowSize)
    ∧ NewMonitor.windowSize = 50 := by
  refine ⟨?_, ?_, ?_, rfl⟩
  · intro hne
    have hlen : (m.getActiveWindow name now).length ≠ 0 := by
      have := List.length_pos.mpr hne
      omega
    unfold Monitor.GetHealth
    rw [if_neg hlen]
    have hc := countLoop_eq (m.getActiveWindow name now) 0 0
    simp only [Nat.zero_add] at hc
    exact ⟨by rw [hc], rfl, by rw [hc], by rw [hc]⟩
  · intro hw
    unfold Monitor.GetHealth
    rw [hw]
    simp
  · intro code
    simp only [Monitor.RecordOutcome, Monitor.pruneWindow]
    rw [lookup_after_update, lookup_after_update]

/-- C4 witness: the 10-entry window with 5 approvals has score exactly
`countP approved / length = 1/2`, and an unknown name on a fresh monitor
yields the optimistic empty-window snapshot. -/
theorem getHealth_score_spec_witness :
    (monitorHalf.getActiveWindow "P" 30 ≠ []
      ∧ (monitorHalf.GetHealth "P" 30).healthScore
          = ((monitorHalf.getActiveWindow "P" 30).countP (fun o => o.approved) : ℚ)
            / ((monitorHalf.getActiveWindow "P" 30).length : ℚ))
    ∧ ((NewMonitor.getActiveWindow "Q" 0 = [])
      ∧ (NewMonitor.GetHealth "Q" 0).healthScore = 1
      ∧ (NewMonitor.GetHealth "Q" 0).status = Status.healthy)
    ∧ (monitorHalf.GetHealth "P" 30).healthScore = 1/2 := by
  refine ⟨⟨by decide, ((getHealth_score_spec monitorHalf "P" 30).1 (by decide)).1⟩,
    ⟨by decide, ?_, ?_⟩, ?_⟩
  · exact ((getHealth_score_spec NewMonitor "Q" 0).2.1 (by decide)).1
  · exact ((getHealth_score_spec NewMonitor "Q" 0).2.1 (by decide)).2.1
  · norm_num [monitorHalf, Monitor.GetHealth, Monitor.getActiveWindow,
      Monitor.lookupWindow, pruneList, List.find?, List.replicate]

theorem statusOf_iff (s : ℚ) :
    (statusOf s = Status.circuitOpen ↔ s < config.CircuitBreakerThreshold)
    ∧ (statusOf s = Status.degraded
        ↔ config.CircuitBreakerThreshold ≤ s ∧ s < config.DegradedThreshold)
    ∧ (statusOf s = Status.healthy ↔ config.DegradedThreshold ≤ s) := by
  have hlt : config.CircuitBreakerThreshold < config.DegradedThreshold := by
    norm_num [config.CircuitBreakerThreshold, config.DegradedThreshold]
  unfold statusOf
  split_ifs with h1 h2
  · exact ⟨⟨fun _ => h1, fun _ => rfl⟩,
      ⟨fun h => absurd h (by decide), fun h => absurd h.1 (not_le.mpr h1)⟩,
      ⟨fun h => absurd h (by decide),
        fun h => absurd h1 (not_lt.mpr (le_trans (le_of_lt hlt) h))⟩⟩
  · exact ⟨⟨fun h => absurd h (by decide), fun h => absurd h h1⟩,
      ⟨fun _ => ⟨not_lt.mp h1, h2⟩, fun _ => rfl⟩,
      ⟨fun h => absurd h (by decide), fun h => absurd h2 (not_lt.mpr h)⟩⟩
  · exact ⟨⟨fun h => absurd h (by decide), fun h => absurd h h1⟩,
      ⟨fun h => absurd h (by decide), fun h => absurd h.2 h2⟩,
      ⟨fun _ => not_lt.mp h2, fun _ => rfl⟩⟩

theorem GetHealth_status_eq (m : Monitor) (name : String) (now : Int) :
    (m.GetHealth name now).status = statusOf (m.GetHealth name now).healthScore := by
  unfold Monitor.GetHealth
  by_cases hlen : (m.getActiveWindow name now).length = 0
  · rw [if_pos hlen]
    show Status.healthy = statusOf 1
    norm_num [statusOf, config.CircuitBreakerThreshold, config.DegradedThreshold]
  · rw [if_neg hlen]

/-- C5 — status thresholds are strict less-than: score < 1/5 iff
circuit-open, 1/5 ≤ score < 1/2 iff degraded, 1/2 ≤ score iff healthy
(the empty-window snapshot, score 1, is healthy and satisfies the same
equivalences). -/
theorem getHealth_status_thresholds (m : Monitor) (name : String) (now : Int) :
    ((m.GetHealth name now).status = Status.circuitOpen
        ↔ (m.GetHealth name now).healthScore < config.CircuitBreakerThreshold)
    ∧ ((m.GetHealth name now).status = Status.degraded
        ↔ config.CircuitBreakerThreshold ≤ (m.GetHealth name now).healthScore
          ∧ (m.GetHealth name now).healthScore < config.DegradedThreshold)
    ∧ ((m.GetHealth name now).status = Status.healthy
        ↔ config.DegradedThreshold ≤ (m.GetHealth name now).healthScore)
    ∧ config.CircuitBreakerThreshold = 1/5
    ∧ config.DegradedThreshold = 1/2 := by
  rw [GetHealth_status_eq m name now]
  exact ⟨(statusOf_iff _).1, (statusOf_iff _).2.1, (statusOf_iff _).2.2, rfl, rfl⟩

/-- C5 witness: the exact boundaries — 5 approvals of 10 (score exactly
1/2) is healthy, 1 approval of 5 (score exactly 1/5) is degraded. -/
theorem getHealth_status_thresholds_witness :
    ((monitorHalf.GetHealth "P" 30).healthScore = 1/2
      ∧ (monitorHalf.GetHealth "P" 30).status = Status.healthy)
    ∧ ((monitorFifth.GetHealth "P" 30).healthScore = 1/5
      ∧ (monitorFifth.GetHealth "P" 30).status = Status.degraded) := by
  have e1 : (monitorHalf.GetHealth "P" 30).healthScore = 1/2 := by
    norm_num [monitorHalf, Monitor.GetHealth, Monitor.getActiveWindow,
      Monitor.lookupWindow, pruneList, List.find?, List.replicate]
  have e2 : (monitorFifth.GetHealth "P" 30).healthScore = 1/5 := by
    norm_num [monitorFifth, Monitor.GetHealth, Monitor.getActiveWindow,
      Monitor.lookupWindow, pruneList, List.find?, List.replicate]
  refine ⟨⟨e1, ?_⟩, ⟨e2, ?_⟩⟩
  · exact ((getHealth_status_thresholds monitorHalf "P" 30).2.2.1).mpr
      (by rw [e1]; norm_num [config.DegradedThreshold])
  · exact ((getHealth_status_thresholds monitorFifth "P" 30).2.1).mpr
      (by rw [e2]; constructor <;>
        norm_num [config.CircuitBreakerThreshold, config.DegradedThreshold])

/-! ## Sorting lemmas for the eligibility ordering -/

theorem perm_goOrderedInsert (less : α → α → Bool) (x : α) (l : List α) :
    (goOrderedInsert less x l).Perm (x :: l) := by
  induction l with
  | nil => simp [goOrderedInsert]
  | cons y ys ih =>
      by_cases h : less x y
      · simp [goOrderedInsert, h]
      · simp only [goOrderedInsert, h, Bool.false_eq_true, if_false]
        exact (ih.cons y).trans (List.Perm.swap x y ys)

theorem mem_goOrderedInsert (less : α → α → Bool) (x z : α) (l : List α) :
    z ∈ goOrderedInsert less x l ↔ z = x ∨ z ∈ l := by
  rw [(perm_goOrderedInsert less x l).mem_iff]
  simp

theorem pairwise_goOrderedInsert (x : eligibleProcessor) (l : List eligibleProcessor)
    (hl : l.Pairwise (fun a b => b.healthScore ≤ a.healthScore)) :
    (goOrderedInsert lessByHealth x l).Pairwise
      (fun a b => b.healthScore ≤ a.healthScore) := by
  induction l with
  | nil => simp [goOrderedInsert]
  | cons y ys ih =>
      rcases List.pairwise_cons.mp hl with ⟨hy, hys⟩
      by_cases h : lessByHealth x y
      · have hxy : y.healthScore < x.healthScore := by
          simpa [lessByHealth] using h
        simp only [goOrderedInsert, h, if_true]
        refine List.pairwise_cons.mpr ⟨?_, hl⟩
        intro z hz
        rcases List.mem_cons.mp hz with rfl | hz'
        · exact le_of_lt hxy
        · exact le_trans (hy z hz') (le_of_lt hxy)
      · have hxy : x.healthScore ≤ y.healthScore := by
          simpa [lessByHealth, not_lt] using h
        simp only [goOrderedInsert, h, Bool.false_eq_true, if_false]
        refine List.pairwise_cons.mpr ⟨?_, ih hys⟩
        intro z hz
        rcases (mem_goOrderedInsert lessByHealth x z ys).mp hz with rfl | hz'
        · exact hxy
        · exact hy z hz'

theorem sortFold_perm (l acc : List eligibleProcessor) :
    (l.foldl (fun acc x => goOrderedInsert lessByHealth x acc) acc).Perm (acc ++ l) := by
  induction l generalizing acc with
  | nil => simp
  | cons x xs ih =>
      refine (ih (goOrderedInsert lessByHealth x acc)).trans ?_
      refine (List.Perm.append_right xs (perm_goOrderedInsert lessByHealth x acc)).trans ?_
      exact List.perm_middle.symm

theorem sortFold_pairwise (l acc : List eligibleProcessor)
    (hacc : acc.Pairwise (fun a b => b.healthScore ≤ a.healthScore)) :
    (l.foldl (fun acc x => goOrderedInsert lessByHealth x acc) acc).Pairwise
      (fun a b => b.healthScore ≤ a.healthScore) := by
  induction l generalizing acc with
  | nil => exact hacc
  | cons x xs ih => exact ih _ (pairwise_goOrderedInsert x acc hacc)

theorem filter_goOrderedInsert (s : ℚ) (x : eligibleProcessor)
    (l : List eligibleProcessor)
    (hl : l.Pairwise (fun a b => b.healthScore ≤ a.healthScore)) :
    (goOrderedInsert lessByHealth x l).filter (fun e => decide (e.healthScore = s))
      = l.filter (fun e => decide (e.healthScore = s))
        ++ (if x.healthScore = s then [x] else []) := by
  induction l with
  | nil =>
      by_cases hx : x.healthScore = s <;>
        simp [goOrderedInsert, List.filter, hx]
  | cons y ys ih =>
      rcases List.pairwise_cons.mp hl with ⟨hy, hys⟩
      by_cases h : lessByHealth x y
      · have hxy : y.healthScore < x.healthScore := by
          simpa [lessByHealth] using h
        simp only [goOrderedInsert, h, if_true]
        by_cases hx : x.healthScore = s
        · have hnone : (y :: ys).filter (fun e => decide (e.healthScore = s)) = [] := by
            refine List.filter_eq_nil_iff.mpr ?_
            intro z hz
            rcases List.mem_cons.mp hz with rfl | hz'
            · simp only [decide_eq_true_eq]
              exact ne_of_lt (hx ▸ hxy)
            · simp only [decide_eq_true_eq]
              exact ne_of_lt (lt_of_le_of_lt (hy z hz') (hx ▸ hxy))
          rw [List.filter_cons_of_pos (by simp [hx]), hnone]
          simp [hx]
        · rw [List.filter_cons_of_neg (by simp [hx])]
          simp [hx]
      · simp only [goOrderedInsert, h, Bool.false_eq_true, if_false]
        by_cases hyv : y.healthScore = s
        · rw [List.filter_cons_of_pos (by simp [hyv]),
            List.filter_cons_of_pos (by simp [hyv]), ih hys, List.cons_append]
        · rw [List.filter_cons_of_neg (by simp [hyv]),
            List.filter_cons_of_neg (by simp [hyv]), ih hys]

theorem sortFold_filter (s : ℚ) (l acc : List eligibleProcessor)
    (hacc : acc.Pairwise (fun a b => b.healthScore ≤ a.healthScore)) :
    (l.foldl (fun acc x => goOrderedInsert lessByHealth x acc) acc).filter
        (fun e => decide (e.healthScore = s))
      = acc.filter (fun e => decide (e.healthScore = s))
        ++ l.filter (fun e => decide (e.healthScore = s)) := by
  induction l generalizing acc with
  | nil => simp
  | cons x xs ih =>
      rw [List.foldl_cons, ih _ (pairwise_goOrderedInsert x acc hacc),
        filter_goOrderedInsert s x acc hacc]
      by_cases hx : x.healthScore = s
      · rw [List.filter_cons_of_pos (by simp [hx])]
        simp [hx]
      · rw [List.filter_cons_of_neg (by simp [hx])]
        simp [hx]

/-- C2 — the eligibility ordering sorts by health score descending and is
stable: for every score, the sub-sequence of eligible processors carrying
that score is exactly the one of the unsorted (configuration-ordered)
eligible list.  The `length ≤ 12` bound marks the insertion-sort path of
Go's `sort.Slice` (pdqsort), the only path a pool of at most 12
processors — in this repository, 4 — can take; for larger slices
`sort.Slice` makes no stability promise. -/
theorem eligible_sorted_stable (processors : List Processor) (m : Monitor) (now : Int)
    (method : String) (hlen : processors.length ≤ 12) :
    (getEligibleProcessors processors m now method).Pairwise
        (fun a b => b.healthScore ≤ a.healthScore)
    ∧ (getEligibleProcessors processors m now method).Perm
        (eligibleUnsorted processors m now method)
    ∧ ∀ s : ℚ,
        (getEligibleProcessors processors m now method).filter
            (fun e => decide (e.healthScore = s))
          = (eligibleUnsorted processors m now method).filter
              (fun e => decide (e.healthScore = s)) := by
  have hlen' : (eligibleUnsorted processors m now method).length ≤ 12 :=
    le_trans (List.length_filterMap_le _ _) hlen
  unfold getEligibleProcessors sortSlice
  rw [if_pos hlen']
  unfold goInsertionSort
  refine ⟨sortFold_pairwise _ [] (by simp), ?_, ?_⟩
  · simpa using sortFold_perm (eligibleUnsorted processors m now method) []
  · intro s
    simpa using sortFold_filter s (eligibleUnsorted processors m now method) [] (by simp)

/-- C2 witness: the four-processor reference pool on a fresh monitor (all
scores tie at 1.0); the sorted eligible list preserves the configured
order PayFlow, CardMax, PixPay, GlobalPay. -/
theorem eligible_sorted_stable_witness :
    refPool.length ≤ 12
    ∧ (getEligibleProcessors refPool NewMonitor 0 "card").Pairwise
        (fun a b => b.healthScore ≤ a.healthScore)
    ∧ (getEligibleProcessors refPool NewMonitor 0 "card").map
        (fun e => e.proc.name)
      = ["PayFlow", "CardMax", "PixPay", "GlobalPay"] := by
  refine ⟨by decide, (eligible_sorted_stable refPool NewMonitor 0 "card" (by decide)).1, ?_⟩
  have hne : (Status.healthy = Status.circuitOpen) = False := by simp
  norm_num [getEligibleProcessors, eligibleUnsorted, refPool, deterministicProcessor,
    SupportsMethod, NewMonitor, Monitor.GetHealth, Monitor.getActiveWindow,
    Monitor.lookupWindow, pruneList, List.find?, sortSlice, goInsertionSort,
    goOrderedInsert, lessByHealth, List.filterMap, hne]

/-! ## Retry-loop unfolding equations -/

theorem processLoop_nil {ctx : Ctx} {req : PaymentRequest} {now : Int} {maxR : Nat}
    {an : Nat} {result : PaymentResult} {mon : Monitor} :
    processLoop ctx req now maxR [] an result mon = (exhaust result, mon) := rfl

theorem processLoop_cons_cap {ctx : Ctx} {req : PaymentRequest} {now : Int} {maxR : Nat}
    {ep : eligibleProcessor} {rest : List eligibleProcessor}
    {an : Nat} {result : PaymentResult} {mon : Monitor} (hcap : maxR ≤ an) :
    processLoop ctx req now maxR (ep :: rest) an result mon = (exhaust result, mon) := by
  simp [processLoop, hcap]

theorem processLoop_cons_approved {ctx : Ctx} {req : PaymentRequest} {now : Int}
    {maxR : Nat} {ep : eligibleProcessor} {rest : List eligibleProcessor}
    {an : Nat} {result : PaymentResult} {mon : Monitor} (hcap : ¬ maxR ≤ an)
    (happ : (ep.proc.process ctx req).code = ResponseCode.approved) :
    processLoop ctx req now maxR (ep :: rest) an result mon =
      ({ transactionID := result.transactionID
         status := PaymentStatus.approved
         attempts := result.attempts ++ [attemptOf ctx req now ep an result]
         finalResponse := some (ep.proc.process ctx req) },
       mon.RecordOutcome ep.proc.name (ep.proc.process ctx req).code now) := by
  simp [processLoop, hcap, attemptOf, happ]

theorem processLoop_cons_hard {ctx : Ctx} {req : PaymentRequest} {now : Int}
    {maxR : Nat} {ep : eligibleProcessor} {rest : List eligibleProcessor}
    {an : Nat} {result : PaymentResult} {mon : Monitor} (hcap : ¬ maxR ≤ an)
    (hnapp : (ep.proc.process ctx req).code ≠ ResponseCode.approved)
    (hhard : (ep.proc.process ctx req).code.IsHardDecline = true) :
    processLoop ctx req now maxR (ep :: rest) an result mon =
      ({ transactionID := result.transactionID
         status := PaymentStatus.declined
         attempts := result.attempts ++ [attemptOf ctx req now ep an result]
         finalResponse := some (ep.proc.process ctx req) },
       mon.RecordOutcome ep.proc.name (ep.proc.process ctx req).code now) := by
  simp [processLoop, hcap, attemptOf, hnapp, hhard]

theorem processLoop_cons_retry {ctx : Ctx} {req : PaymentRequest} {now : Int}
    {maxR : Nat} {ep : eligibleProcessor} {rest : List eligibleProcessor}
    {an : Nat} {result : PaymentResult} {mon : Monitor} (hcap : ¬ maxR ≤ an)
    (hnapp : (ep.proc.process ctx req).code ≠ ResponseCode.approved)
    (hnhard : (ep.proc.process ctx req).code.IsHardDecline = false) :
    processLoop ctx req now maxR (ep :: rest) an result mon =
      processLoop ctx req now maxR rest (an + 1)
        { result with attempts := result.attempts ++ [attemptOf ctx req now ep an result] }
        (mon.RecordOutcome ep.proc.name (ep.proc.process ctx req).code now) := by
  simp [processLoop, hcap, attemptOf, hnapp, hnhard]

/-- Attempt numbers are `1, 2, …, n` in positional order. -/
def Numbered (l : List Attempt) : Prop :=
  ∀ i (h : i < l.length), l[i].attemptNumber = i + 1

theorem numbered_append_one {l : List Attempt} {a : Attempt} (hl : Numbered l)
    (ha : a.attemptNumber = l.length + 1) : Numbered (l ++ [a]) := by
  intro i h
  have hlen : i < l.length + 1 := by simpa using h
  by_cases hi : i < l.length
  · rw [List.getElem_append_left hi]
    exact hl i hi
  · have hieq : i = l.length := by omega
    subst hieq
    simp [ha]

/-- The core retry-loop invariants, by induction over the remaining
eligible list: the loop only appends attempts, is bounded by the retry
cap, preserves the transaction id, keeps attempt numbers contiguous from
1, always leaves a set (non-zero) status, and sets `finalResponse` iff
some attempt exists. -/
theorem processLoop_invariants (ctx : Ctx) (req : PaymentRequest) (now : Int)
    (maxR : Nat) :
    ∀ (rest : List eligibleProcessor) (an : Nat) (result : PaymentResult) (mon : Monitor),
      result.attempts.length = an →
      (∃ news, (processLoop ctx req now maxR rest an result mon).1.attempts
          = result.attempts ++ news)
      ∧ (processLoop ctx req now maxR rest an result mon).1.attempts.length ≤ max an maxR
      ∧ (processLoop ctx req now maxR rest an result mon).1.transactionID
          = result.transactionID
      ∧ (Numbered result.attempts →
          Numbered (processLoop ctx req now maxR rest an result mon).1.attempts)
      ∧ (result.finalResponse = none →
          ((processLoop ctx req now maxR rest an result mon).1.status ≠ PaymentStatus.unset
            ∧ ((processLoop ctx req now maxR rest an result mon).1.finalResponse.isSome
                ↔ (processLoop ctx req now maxR rest an result mon).1.attempts ≠ []))) := by
  intro rest
  induction rest with
  | nil =>
      intro an result mon han
      rw [processLoop_nil]
      refine ⟨⟨[], by simp [exhaust_attempts]⟩, ?_, exhaust_transactionID result, ?_, ?_⟩
      · rw [exhaust_attempts, han]
        exact le_max_left an maxR
      · intro hn
        rw [exhaust_attempts]
        exact hn
      · intro hfin
        refine ⟨by rw [exhaust_status]; exact fun h => PaymentStatus.noConfusion h, ?_⟩
        rw [exhaust_attempts, exhaust_finalResponse]
        cases hl : result.attempts.getLast? with
        | none =>
            have hemp : result.attempts = [] := by simpa using hl
            simp [hemp, hfin]
        | some a =>
            have hne : result.attempts ≠ [] := by
              intro hemp
              rw [hemp] at hl
              exact Option.noConfusion hl
            simp [hne]
  | cons ep rest ih =>
      intro an result mon han
      by_cases hcap : maxR ≤ an
      · rw [processLoop_cons_cap hcap]
        refine ⟨⟨[], by simp [exhaust_attempts]⟩, ?_, exhaust_transactionID result, ?_, ?_⟩
        · rw [exhaust_attempts, han]
          exact le_max_left an maxR
        · intro hn
          rw [exhaust_attempts]
          exact hn
        · intro hfin
          refine ⟨by rw [exhaust_status]; exact fun h => PaymentStatus.noConfusion h, ?_⟩
          rw [exhaust_attempts, exhaust_finalResponse]
          cases hl : result.attempts.getLast? with
          | none =>
              have hemp : result.attempts = [] := by simpa using hl
              simp [hemp, hfin]
          | some a =>
              have hne : result.attempts ≠ [] := by
                intro hemp
                rw [hemp] at hl
                exact Option.noConfusion hl
              simp [hne]
      · by_cases happ : (ep.proc.process ctx req).code = ResponseCode.approved
        · rw [processLoop_cons_approved hcap happ]
          refine ⟨⟨[attemptOf ctx req now ep an result], rfl⟩, ?_, rfl, ?_, ?_⟩
          · simp only [List.length_append, List.length_cons, List.length_nil, han]
            omega
          · intro hn
            exact numbered_append_one hn (by simp [attemptOf, han])
          · intro _
            refine ⟨fun h => PaymentStatus.noConfusion h, ?_⟩
            simp
        · by_cases hhardb : (ep.proc.process ctx req).code.IsHardDecline
          · rw [processLoop_cons_hard hcap happ hhardb]
            refine ⟨⟨[attemptOf ctx req now ep an result], rfl⟩, ?_, rfl, ?_, ?_⟩
            · simp only [List.length_append, List.length_cons, List.length_nil, han]
              omega
            · intro hn
              exact numbered_append_one hn (by simp [attemptOf, han])
            · intro _
              refine ⟨fun h => PaymentStatus.noConfusion h, ?_⟩
              simp
          · have hnhard : (ep.proc.process ctx req).code.IsHardDecline = false := by
              simpa using hhardb
            rw [processLoop_cons_retry hcap happ hnhard]
            have han' :
                ({ result with
                    attempts := result.attempts ++ [attemptOf ctx req now ep an result] }
                  : PaymentResult).attempts.length = an + 1 := by
              simp [han]
            rcases ih (an + 1) _ _ han' with ⟨⟨news, hnews⟩, hlen, htxn, hnum, hfin⟩
            refine ⟨⟨attemptOf ctx req now ep an result :: news, ?_⟩, ?_, htxn, ?_, hfin⟩
            · rw [hnews]
              simp
            · refine le_trans hlen ?_
              omega
            · intro hn
              exact hnum (numbered_append_one hn (by simp [attemptOf, han]))

/-- C7 — every result of `ProcessPayment` under the default retry cap has
at most 3 attempts, numbered contiguously `1, 2, …, n`. -/
theorem payment_attempts_capped_numbered (processors : List Processor) (monitor : Monitor)
    (ctx : Ctx) (req : PaymentRequest) (now : Int) :
    (((Orchestrator.New processors monitor).ProcessPayment ctx req now).1.attempts.length ≤ 3)
    ∧ Numbered
        (((Orchestrator.New processors monitor).ProcessPayment ctx req now).1.attempts) := by
  unfold Orchestrator.ProcessPayment
  by_cases helig :
      (getEligibleProcessors (Orchestrator.New processors monitor).processors
        (Orchestrator.New processors monitor).monitor now req.paymentMethod).length = 0
  · rw [if_pos helig]
    exact ⟨by simp, fun i h => absurd h (by simp)⟩
  · rw [if_neg helig]
    have hinv := processLoop_invariants ctx req now
      (Orchestrator.New processors monitor).maxRetries
      (getEligibleProcessors (Orchestrator.New processors monitor).processors
        (Orchestrator.New processors monitor).monitor now req.paymentMethod) 0
      { transactionID := req.transactionID, status := PaymentStatus.unset,
        attempts := [], finalResponse := none }
      (Orchestrator.New processors monitor).monitor rfl
    rcases hinv with ⟨_, hlen, _, hnum, _⟩
    refine ⟨le_trans hlen ?_, hnum (fun i h => absurd h (by simp))⟩
    show max 0 (Orchestrator.New processors monitor).maxRetries ≤ 3
    simp [Orchestrator.New, config.MaxRetries]

/-- C7 witness: a two-processor pool yields two attempts numbered 1 and 2
within the cap. -/
theorem payment_attempts_capped_numbered_witness :
    ((((Orchestrator.New
        [deterministicProcessor "ProcA" ["card"] ResponseCode.softDecline,
         deterministicProcessor "ProcB" ["card"] ResponseCode.approved]
        NewMonitor).ProcessPayment ⟨false⟩ reqCard 0).1.attempts.length ≤ 3)
      ∧ Numbered
          ((((Orchestrator.New
            [deterministicProcessor "ProcA" ["card"] ResponseCode.softDecline,
             deterministicProcessor "ProcB" ["card"] ResponseCode.approved]
            NewMonitor).ProcessPayment ⟨false⟩ reqCard 0)).1.attempts))
    ∧ (((Orchestrator.New
        [deterministicProcessor "ProcA" ["card"] ResponseCode.softDecline,
         deterministicProcessor "ProcB" ["card"] ResponseCode.approved]
        NewMonitor).ProcessPayment ⟨false⟩ reqCard 0).1.attempts.map
          (fun a => a.attemptNumber)) = [1, 2] :=
  ⟨payment_attempts_capped_numbered _ NewMonitor ⟨false⟩ reqCard 0, by decide⟩

/-- C6 — every result of `ProcessPayment` carries a terminal status;
`finalResponse` is non-null iff at least one attempt was made; with no
eligible processor the result is `declined` with zero attempts and null
final response; and the returned result is the one persisted under the
request's transaction id. -/
theorem payment_result_terminal (o : Orchestrator) (ctx : Ctx) (req : PaymentRequest)
    (now : Int) :
    ((o.ProcessPayment ctx req now).1.status = PaymentStatus.approved
      ∨ (o.ProcessPayment ctx req now).1.status = PaymentStatus.declined
      ∨ (o.ProcessPayment ctx req now).1.status = PaymentStatus.exhaustedRetries)
    ∧ ((o.ProcessPayment ctx req now).1.finalResponse.isSome
        ↔ (o.ProcessPayment ctx req now).1.attempts ≠ [])
    ∧ (getEligibleProcessors o.processors o.monitor now req.paymentMethod = [] →
        (o.ProcessPayment ctx req now).1.status = PaymentStatus.declined
        ∧ (o.ProcessPayment ctx req now).1.attempts = []
        ∧ (o.ProcessPayment ctx req now).1.finalResponse = none)
    ∧ (o.ProcessPayment ctx req now).2.store.Get req.transactionID
        = some (o.ProcessPayment ctx req now).1 := by
  unfold Orchestrator.ProcessPayment
  by_cases helig :
      (getEligibleProcessors o.processors o.monitor now req.paymentMethod).length = 0
  · rw [if_pos helig]
    refine ⟨Or.inr (Or.inl rfl), by simp, fun _ => ⟨rfl, rfl, rfl⟩, ?_⟩
    rw [save_get]
    simp
  · rw [if_neg helig]
    rcases processLoop_invariants ctx req now o.maxRetries
      (getEligibleProcessors o.processors o.monitor now req.paymentMethod) 0
      ⟨req.transactionID, PaymentStatus.unset, [], none⟩ o.monitor rfl with
      ⟨_, _, htxn, _, hfin⟩
    have h5 := hfin rfl
    refine ⟨?_, h5.2, ?_, ?_⟩
    · cases hstat : (processLoop ctx req now o.maxRetries
          (getEligibleProcessors o.processors o.monitor now req.paymentMethod) 0
          ⟨req.transactionID, PaymentStatus.unset, [], none⟩ o.monitor).1.status
      · exact absurd hstat h5.1
      · exact Or.inl rfl
      · exact Or.inr (Or.inl rfl)
      · exact Or.inr (Or.inr rfl)
    · intro h
      exact absurd (by simp [h]) helig
    · rw [save_get, htxn]
      simp

/-- C6 witness: the empty-eligibility path (a pix request against
card-only processors) is declined with zero attempts and null final
response, and the result is retrievable from the store. -/
theorem payment_result_terminal_witness :
    (getEligibleProcessors
        [deterministicProcessor "ProcA" ["card"] ResponseCode.approved]
        NewMonitor 0 "pix").length = 0
    ∧ (((Orchestrator.New
          [deterministicProcessor "ProcA" ["card"] ResponseCode.approved]
          NewMonitor).ProcessPayment ⟨false⟩
          { reqCard with paymentMethod := "pix" } 0).1.status = PaymentStatus.declined
        ∧ ((Orchestrator.New
          [deterministicProcessor "ProcA" ["card"] ResponseCode.approved]
          NewMonitor).ProcessPayment ⟨false⟩
          { reqCard with paymentMethod := "pix" } 0).1.attempts = []
        ∧ ((Orchestrator.New
          [deterministicProcessor "ProcA" ["card"] ResponseCode.approved]
          NewMonitor).ProcessPayment ⟨false⟩
          { reqCard with paymentMethod := "pix" } 0).1.finalResponse = none) :=
  ⟨by decide,
    (payment_result_terminal
      (Orchestrator.New
        [deterministicProcessor "ProcA" ["card"] ResponseCode.approved] NewMonitor)
      ⟨false⟩ { reqCard with paymentMethod := "pix" } 0).2.2.1
      (List.length_eq_zero.mp (by decide))⟩

/-- No attempt in the list carries a hard-decline code. -/
abbrev NoHard (l : List Attempt) : Prop :=
  ∀ (i : Nat) (a : Attempt), l[i]? = some a → a.response.code.IsHardDecline = false

theorem noHard_append_one {l : List Attempt} {a : Attempt} (hl : NoHard l)
    (ha : a.response.code.IsHardDecline = false) : NoHard (l ++ [a]) := by
  intro i b hb
  by_cases hi : i < l.length
  · rw [List.getElem?_append_left hi] at hb
    exact hl i b hb
  · rw [List.getElem?_append_right (le_of_not_lt hi)] at hb
    rcases hil : i - l.length with _ | n
    · rw [hil] at hb
      simp only [List.getElem?_cons_zero, Option.some.injEq] at hb
      rw [← hb]
      exact ha
    · rw [hil] at hb
      simp at hb

/-- Inside the retry loop, a hard-decline response ends the loop at once:
if the attempts accumulated so far are hard-decline-free, then any
hard-decline attempt in the loop's output is its last attempt and the
output status is `declined`. -/
theorem processLoop_hard_final (ctx : Ctx) (req : PaymentRequest) (now : Int)
    (maxR : Nat) :
    ∀ (rest : List eligibleProcessor) (an : Nat) (result : PaymentResult) (mon : Monitor),
      NoHard result.attempts →
      ∀ (i : Nat) (a : Attempt),
        (processLoop ctx req now maxR rest an result mon).1.attempts[i]? = some a →
        a.response.code.IsHardDecline = true →
        i + 1 = (processLoop ctx req now maxR rest an result mon).1.attempts.length
        ∧ (processLoop ctx req now maxR rest an result mon).1.status
            = PaymentStatus.declined := by
  intro rest
  induction rest with
  | nil =>
      intro an result mon hclean i a hb hhard
      rw [processLoop_nil, exhaust_attempts] at hb
      rw [hclean i a hb] at hhard
      exact Bool.noConfusion hhard
  | cons ep rest ih =>
      intro an result mon hclean i a hb hhard
      by_cases hcap : maxR ≤ an
      · rw [processLoop_cons_cap hcap, exhaust_attempts] at hb
        rw [hclean i a hb] at hhard
        exact Bool.noConfusion hhard
      · by_cases happ : (ep.proc.process ctx req).code = ResponseCode.approved
        · rw [processLoop_cons_approved hcap happ] at hb
          simp only at hb
          have hext : NoHard (result.attempts ++ [attemptOf ctx req now ep an result]) :=
            noHard_append_one hclean (by simp [attemptOf, happ, ResponseCode.IsHardDecline])
          rw [hext i a hb] at hhard
          exact Bool.noConfusion hhard
        · by_cases hhardb : (ep.proc.process ctx req).code.IsHardDecline
          · rw [processLoop_cons_hard hcap happ hhardb] at hb ⊢
            simp only at hb ⊢
            by_cases hi : i < result.attempts.length
            · rw [List.getElem?_append_left hi] at hb
              rw [hclean i a hb] at hhard
              exact Bool.noConfusion hhard
            · rw [List.getElem?_append_right (le_of_not_lt hi)] at hb
              rcases hil : i - result.attempts.length with _ | n
              · have hieq : i = result.attempts.length := by omega
                subst hieq
                simp
              · rw [hil] at hb
                simp at hb
          · have hnhard : (ep.proc.process ctx req).code.IsHardDecline = false := by
              simpa using hhardb
            rw [processLoop_cons_retry hcap happ hnhard] at hb ⊢
            exact ih (an + 1) _ _
              (noHard_append_one hclean (by simp [attemptOf, hnhard])) i a hb hhard

/-- C3 (amended) — a hard-decline response immediately ends processing:
in every `ProcessPayment` result, a hard-decline attempt is the *final*
attempt (no further processor is tried even when more were eligible) and
the status is `declined`; the result has exactly one attempt only when
the hard decline occurs on attempt 1. -/
theorem hard_decline_is_final (o : Orchestrator) (ctx : Ctx) (req : PaymentRequest)
    (now : Int) :
    ∀ (i : Nat) (a : Attempt),
      (o.ProcessPayment ctx req now).1.attempts[i]? = some a →
      a.response.code.IsHardDecline = true →
      i + 1 = (o.ProcessPayment ctx req now).1.attempts.length
      ∧ (o.ProcessPayment ctx req now).1.status = PaymentStatus.declined := by
  unfold Orchestrator.ProcessPayment
  by_cases helig :
      (getEligibleProcessors o.processors o.monitor now req.paymentMethod).length = 0
  · rw [if_pos helig]
    intro i a hb
    simp at hb
  · rw [if_neg helig]
    intro i a hb hhard
    exact processLoop_hard_final ctx req now o.maxRetries
      (getEligibleProcessors o.processors o.monitor now req.paymentMethod) 0
      ⟨req.transactionID, PaymentStatus.unset, [], none⟩ o.monitor
      (fun j b hj => by simp at hj) i a hb hhard

/-- A pool whose first eligible processor soft-declines and whose second
hard-declines: the declined result keeps both attempts. -/
def orchHardSecond : Orchestrator :=
  Orchestrator.New
    [deterministicProcessor "ProcA" ["card"] ResponseCode.softDecline,
     deterministicProcessor "ProcB" ["card"] ResponseCode.declinedInsufficientFunds]
    NewMonitor

/-- C3 counterexample — a payment that ends with a hard decline
(`declined_insufficient_funds` on attempt 2 after a retriable
`soft_decline` on attempt 1) has TWO attempts, refuting "exactly one
attempt" as stated. -/
theorem hard_decline_two_attempts_counterexample :
    ((orchHardSecond.ProcessPayment ⟨false⟩ reqCard 0).1.status = PaymentStatus.declined)
    ∧ ((orchHardSecond.ProcessPayment ⟨false⟩ reqCard 0).1.attempts.map
        (fun a => a.response.code))
      = [ResponseCode.softDecline, ResponseCode.declinedInsufficientFunds]
    ∧ ((orchHardSecond.ProcessPayment ⟨false⟩ reqCard 0).1.attempts.length = 2)
    ∧ ¬ ((orchHardSecond.ProcessPayment ⟨false⟩ reqCard 0).1.attempts.length = 1) := by
  decide

/-- C3 witness: on the same two-attempt run, the hard-decline attempt
(index 1) is the final one and the status is declined. -/
theorem hard_decline_is_final_witness :
    1 + 1 = (orchHardSecond.ProcessPayment ⟨false⟩ reqCard 0).1.attempts.length
    ∧ (orchHardSecond.ProcessPayment ⟨false⟩ reqCard 0).1.status = PaymentStatus.declined :=
  hard_decline_is_final orchHardSecond ⟨false⟩ reqCard 0 1
    ((orchHardSecond.ProcessPayment ⟨false⟩ reqCard 0).1.attempts.get ⟨1, by decide⟩)
    (List.getElem?_eq_getElem (by decide)) (by decide)

theorem mem_sortSlice_lessByHealth {l : List eligibleProcessor} {a : eligibleProcessor} :
    a ∈ sortSlice lessByHealth l ↔ a ∈ l := by
  unfold sortSlice
  split
  · unfold goInsertionSort
    rw [(sortFold_perm l []).mem_iff]
    simp
  · exact Iff.rfl

theorem eligible_mem {processors : List Processor} {m : Monitor} {now : Int}
    {method : String} {ep : eligibleProcessor}
    (h : ep ∈ getEligibleProcessors processors m now method) :
    ep.proc ∈ processors ∧ ep.status ≠ Status.circuitOpen := by
  unfold getEligibleProcessors at h
  rw [mem_sortSlice_lessByHealth] at h
  unfold eligibleUnsorted at h
  rcases List.mem_filterMap.mp h with ⟨p, hp, hf⟩
  by_cases hs : SupportsMethod p method
  · rw [if_neg (by simp [hs])] at hf
    by_cases ho : (m.GetHealth p.name now).status = Status.circuitOpen
    · rw [if_pos ho] at hf
      exact Option.noConfusion hf
    · rw [if_neg ho] at hf
      have hf' := Option.some.inj hf
      rw [← hf']
      exact ⟨hp, ho⟩
  · rw [if_pos (by simp [hs])] at hf
    exact Option.noConfusion hf

/-- When every remaining eligible processor answers `timeout`, the loop
runs through all of them (up to the cap), never exits early, and ends in
`exhausted_retries` — the cancellation signal is not consulted between
attempts. -/
theorem processLoop_all_timeout (ctx : Ctx) (req : PaymentRequest) (now : Int)
    (maxR : Nat) :
    ∀ (rest : List eligibleProcessor) (an : Nat) (result : PaymentResult) (mon : Monitor),
      result.attempts.length = an → an ≤ maxR →
      (∀ ep ∈ rest, (ep.proc.process ctx req).code = ResponseCode.timeout) →
      (processLoop ctx req now maxR rest an result mon).1.attempts.length
          = min (an + rest.length) maxR
      ∧ (processLoop ctx req now maxR rest an result mon).1.status
          = PaymentStatus.exhaustedRetries
      ∧ ∀ (i : Nat) (a : Attempt),
          (processLoop ctx req now maxR rest an result mon).1.attempts[i]? = some a →
          an ≤ i → a.response.code = ResponseCode.timeout := by
  intro rest
  induction rest with
  | nil =>
      intro an result mon han hanle _
      rw [processLoop_nil]
      refine ⟨by rw [exhaust_attempts, han]; simp only [List.length_nil]; omega,
        exhaust_status result, ?_⟩
      intro i a hb hi
      rw [exhaust_attempts] at hb
      rcases List.getElem?_eq_some.mp hb with ⟨hlt, _⟩
      omega
  | cons ep rest ih =>
      intro an result mon han hanle hall
      by_cases hcap : maxR ≤ an
      · rw [processLoop_cons_cap hcap]
        refine ⟨by rw [exhaust_attempts, han]; simp only [List.length_cons]; omega,
          exhaust_status result, ?_⟩
        intro i a hb hi
        rw [exhaust_attempts] at hb
        rcases List.getElem?_eq_some.mp hb with ⟨hlt, _⟩
        omega
      · have hcode : (ep.proc.process ctx req).code = ResponseCode.timeout :=
          hall ep (List.mem_cons_self ep rest)
        have happ : (ep.proc.process ctx req).code ≠ ResponseCode.approved := by
          rw [hcode]
          exact fun heq => ResponseCode.noConfusion heq
        have hnhard : (ep.proc.process ctx req).code.IsHardDecline = false := by
          rw [hcode]
          rfl
        rw [processLoop_cons_retry hcap happ hnhard]
        have han' :
            ({ result with
                attempts := result.attempts ++ [attemptOf ctx req now ep an result] }
              : PaymentResult).attempts.length = an + 1 := by
          simp [han]
        have hanle' : an + 1 ≤ maxR := by omega
        have hall' : ∀ e ∈ rest, (e.proc.process ctx req).code = ResponseCode.timeout :=
          fun e he => hall e (List.mem_cons_of_mem ep he)
        rcases ih (an + 1) _ _ han' hanle' hall' with ⟨hlen, hstat, hcodes⟩
        refine ⟨by rw [hlen]; simp only [List.length_cons]; omega, hstat, ?_⟩
        intro i a hb hi
        by_cases hieq : i = an
        · subst hieq
          rcases processLoop_invariants ctx req now maxR rest (i + 1) _ _ han' with
            ⟨⟨news, hnews⟩, _, _, _, _⟩
          rw [hnews] at hb
          rw [List.getElem?_append_left (by simp [han])] at hb
          rw [List.getElem?_append_right (by omega : result.attempts.length ≤ i)] at hb
          rw [han] at hb
          simp only [Nat.sub_self, List.getElem?_cons_zero, Option.some.injEq] at hb
          rw [← hb]
          exact hcode
        · exact hcodes i a hb (by omega)

/-- C1 (amended) — the orchestrator does not skip attempts after
cancellation: with the signal cancelled throughout and every processor
answering `timeout` to a cancelled invocation (the contract's behaviour,
implemented by the mock), the retry loop still invokes one eligible
processor per slot until the eligible list or the cap of 3 is exhausted;
every attempt records `timeout` and the result is `exhausted_retries`. -/
theorem cancelled_no_skip (processors : List Processor) (monitor : Monitor)
    (req : PaymentRequest) (now : Int) (ctx : Ctx)
    (_hc : ctx.cancelled = true)
    (hto : ∀ p ∈ processors, (p.process ctx req).code = ResponseCode.timeout) :
    ((Orchestrator.New processors monitor).ProcessPayment ctx req now).1.attempts.length
        = min (getEligibleProcessors processors monitor now req.paymentMethod).length 3
    ∧ (getEligibleProcessors processors monitor now req.paymentMethod ≠ [] →
        ((Orchestrator.New processors monitor).ProcessPayment ctx req now).1.status
          = PaymentStatus.exhaustedRetries)
    ∧ ∀ (i : Nat) (a : Attempt),
        ((Orchestrator.New processors monitor).ProcessPayment ctx req now).1.attempts[i]?
            = some a →
        a.response.code = ResponseCode.timeout := by
  unfold Orchestrator.ProcessPayment
  by_cases helig :
      (getEligibleProcessors (Orchestrator.New processors monitor).processors
        (Orchestrator.New processors monitor).monitor now req.paymentMethod).length = 0
  · rw [if_pos helig]
    have helig' : (getEligibleProcessors processors monitor now req.paymentMethod).length = 0 :=
      helig
    refine ⟨by rw [helig']; rfl, ?_, ?_⟩
    · intro hne
      exact absurd (List.length_eq_zero.mp helig') hne
    · intro i a hb
      simp at hb
  · rw [if_neg helig]
    have hall : ∀ e ∈ getEligibleProcessors (Orchestrator.New processors monitor).processors
        (Orchestrator.New processors monitor).monitor now req.paymentMethod,
        (e.proc.process ctx req).code = ResponseCode.timeout :=
      fun e he => hto e.proc (eligible_mem he).1
    rcases processLoop_all_timeout ctx req now (Orchestrator.New processors monitor).maxRetries
      (getEligibleProcessors (Orchestrator.New processors monitor).processors
        (Orchestrator.New processors monitor).monitor now req.paymentMethod) 0
      ⟨req.transactionID, PaymentStatus.unset, [], none⟩
      (Orchestrator.New processors monitor).monitor rfl (Nat.zero_le _)
      hall with ⟨hlen, hstat, hcodes⟩
    refine ⟨hlen.trans ?_, fun _ => hstat, fun i a hb => hcodes i a hb (Nat.zero_le i)⟩
    show (0 + (getEligibleProcessors processors monitor now req.paymentMethod).length) ⊓ 3
      = (getEligibleProcessors processors monitor now req.paymentMethod).length ⊓ 3
    omega

/-- The pool for the cancellation counterexample: two processors with
the mock's cancellation behaviour. -/
def cancelPool : List Processor :=
  [cancelAwareProcessor "ProcA" ["card"] ResponseCode.approved,
   cancelAwareProcessor "ProcB" ["card"] ResponseCode.approved]

/-- An orchestrator over `cancelPool`. -/
def orchCancel : Orchestrator := Orchestrator.New cancelPool NewMonitor

/-- C1 counterexample — with the signal cancelled before and during the
whole request, attempt 1 returns `timeout` while the signal is cancelled,
the signal remains cancelled, and attempt 2 is STILL made (the loop head
never checks the signal): the run ends with two `timeout` attempts and
`exhausted_retries`.  Without cancellation the same pool approves on
attempt 1. -/
theorem cancelled_retry_counterexample :
    ((orchCancel.ProcessPayment ⟨true⟩ reqCard 0).1.attempts.map (fun a => a.response.code))
      = [ResponseCode.timeout, ResponseCode.timeout]
    ∧ (orchCancel.ProcessPayment ⟨true⟩ reqCard 0).1.attempts.length = 2
    ∧ (orchCancel.ProcessPayment ⟨true⟩ reqCard 0).1.status = PaymentStatus.exhaustedRetries
    ∧ ((orchCancel.ProcessPayment ⟨false⟩ reqCard 0).1.attempts.map (fun a => a.response.code))
      = [ResponseCode.approved] := by
  decide

/-- C1 witness: the amended theorem applied to the concrete cancelled
run — both eligible processors are attempted (min 2 3 = 2 attempts). -/
theorem cancelled_no_skip_witness :
    (⟨true⟩ : Ctx).cancelled = true
    ∧ (∀ p ∈ cancelPool, (p.process ⟨true⟩ reqCard).code = ResponseCode.timeout)
    ∧ ((orchCancel.ProcessPayment ⟨true⟩ reqCard 0).1.attempts.length
        = min (getEligibleProcessors cancelPool NewMonitor 0 "card").length 3) :=
  ⟨rfl, by decide,
    (cancelled_no_skip cancelPool NewMonitor reqCard 0 ⟨true⟩ rfl (by decide)).1⟩

/-- The routing-reason format of §6 of the spec, phrased over the chosen
eligible entry and the previous attempt (if any).  The four bit-exact
templates are:
`primary: highest health score <2dp>`,
`primary (degraded): health score <2dp>`,
`fallback: <prev processor> returned <prev code>`, and the latter
suffixed with ` (degraded: health <2dp>)` exactly when the chosen entry
is degraded. -/
def specRoutingReason (ep : eligibleProcessor) (prev : Option Attempt) : String :=
  match prev with
  | none =>
      if ep.status = Status.degraded then
        "primary (degraded): health score " ++ fmt2dp ep.healthScore
      else
        "primary: highest health score " ++ fmt2dp ep.healthScore
  | some prevAttempt =>
      if ep.status = Status.degraded then
        "fallback: " ++ prevAttempt.processorName ++ " returned "
          ++ prevAttempt.response.code.str
          ++ " (degraded: health " ++ fmt2dp ep.healthScore ++ ")"
      else
        "fallback: " ++ prevAttempt.processorName ++ " returned "
          ++ prevAttempt.response.code.str

/-- The loop computes the attempt number as one more than the number of
prior attempts, so `buildRoutingReason` coincides with the spec-side
format applied to the last prior attempt. -/
theorem buildRoutingReason_eq_spec (ep : eligibleProcessor) (an : Nat)
    (result : PaymentResult) (han : result.attempts.length = an) :
    buildRoutingReason ep (an + 1) result
      = specRoutingReason ep result.attempts.getLast? := by
  cases an with
  | zero =>
      have hemp : result.attempts = [] := List.length_eq_zero.mp han
      unfold buildRoutingReason specRoutingReason
      rw [hemp]
      simp
  | succ n =>
      have hne : result.attempts ≠ [] := by
        intro h
        rw [h] at han
        simp at han
      obtain ⟨p, hp⟩ : ∃ p, result.attempts.getLast? = some p := by
        cases hl : result.attempts.getLast? with
        | none => exact absurd (by simpa using hl) hne
        | some p => exact ⟨p, rfl⟩
      unfold buildRoutingReason specRoutingReason
      rw [hp]
      simp

/-- Attempt `i` of the loop's output is produced by the `(i - an)`-th
remaining eligible entry, with that entry's processor, that entry's
response, and the routing reason in the spec's format relative to the
previous attempt. -/
theorem processLoop_reasons (ctx : Ctx) (req : PaymentRequest) (now : Int)
    (maxR : Nat) :
    ∀ (rest : List eligibleProcessor) (an : Nat) (result : PaymentResult) (mon : Monitor),
      result.attempts.length = an →
      ∀ (i : Nat) (a : Attempt),
        (processLoop ctx req now maxR rest an result mon).1.attempts[i]? = some a →
        an ≤ i →
        ∃ ep, rest[i - an]? = some ep
          ∧ a.processorName = ep.proc.name
          ∧ a.response = ep.proc.process ctx req
          ∧ a.routingReason = specRoutingReason ep
              (if i = an then result.attempts.getLast?
               else (processLoop ctx req now maxR rest an result mon).1.attempts[i - 1]?) := by
  intro rest
  induction rest with
  | nil =>
      intro an result mon han i a hb hi
      rw [processLoop_nil, exhaust_attempts] at hb
      rcases List.getElem?_eq_some.mp hb with ⟨hlt, _⟩
      omega
  | cons ep rest ih =>
      intro an result mon han i a hb hi
      by_cases hcap : maxR ≤ an
      · rw [processLoop_cons_cap hcap, exhaust_attempts] at hb
        rcases List.getElem?_eq_some.mp hb with ⟨hlt, _⟩
        omega
      · by_cases happ : (ep.proc.process ctx req).code = ResponseCode.approved
        · rw [processLoop_cons_approved hcap happ] at hb ⊢
          simp only at hb ⊢
          have hieq : i = an := by
            rcases List.getElem?_eq_some.mp hb with ⟨hlt, _⟩
            simp only [List.length_append, List.length_cons, List.length_nil, han] at hlt
            omega
          subst hieq
          rw [List.getElem?_append_right (by omega : result.attempts.length ≤ i),
            han, Nat.sub_self] at hb
          simp only [List.getElem?_cons_zero, Option.some.injEq] at hb
          rw [← hb]
          refine ⟨ep, by simp, rfl, rfl, ?_⟩
          rw [if_pos rfl]
          exact buildRoutingReason_eq_spec ep i result han
        · by_cases hhardb : (ep.proc.process ctx req).code.IsHardDecline
          · rw [processLoop_cons_hard hcap happ hhardb] at hb ⊢
            simp only at hb ⊢
            have hieq : i = an := by
              rcases List.getElem?_eq_some.mp hb with ⟨hlt, _⟩
              simp only [List.length_append, List.length_cons, List.length_nil, han] at hlt
              omega
            subst hieq
            rw [List.getElem?_append_right (by omega : result.attempts.length ≤ i),
              han, Nat.sub_self] at hb
            simp only [List.getElem?_cons_zero, Option.some.injEq] at hb
            rw [← hb]
            refine ⟨ep, by simp, rfl, rfl, ?_⟩
            rw [if_pos rfl]
            exact buildRoutingReason_eq_spec ep i result han
          · have hnhard : (ep.proc.process ctx req).code.IsHardDecline = false := by
              simpa using hhardb
            rw [processLoop_cons_retry hcap happ hnhard] at hb ⊢
            have han' :
                ({ result with
                    attempts := result.attempts ++ [attemptOf ctx req now ep an result] }
                  : PaymentResult).attempts.length = an + 1 := by
              simp [han]
            rcases processLoop_invariants ctx req now maxR rest (an + 1) _ _ han' with
              ⟨⟨news, hnews⟩, _, _, _, _⟩
            by_cases hieq : i = an
            · subst hieq
              rw [hnews, List.getElem?_append_left (by simp [han]),
                List.getElem?_append_right (by omega : result.attempts.length ≤ i),
                han, Nat.sub_self] at hb
              simp only [List.getElem?_cons_zero, Option.some.injEq] at hb
              rw [← hb]
              refine ⟨ep, by simp, rfl, rfl, ?_⟩
              rw [if_pos rfl]
              exact buildRoutingReason_eq_spec ep i result han
            · rcases ih (an + 1) _ _ han' i a hb (by omega) with
                ⟨ep', hep', hname, hresp, hreason⟩
              refine ⟨ep', ?_, hname, hresp, ?_⟩
              · have hsub : i - an = (i - (an + 1)) + 1 := by omega
                rw [hsub]
                simpa using hep'
              · rw [if_neg hieq]
                by_cases hisucc : i = an + 1
                · rw [if_pos hisucc] at hreason
                  rw [hreason]
                  have h1 : ({ result with
                      attempts := result.attempts ++ [attemptOf ctx req now ep an result] }
                        : PaymentResult).attempts.getLast?
                      = some (attemptOf ctx req now ep an result) := by
                    simp
                  have h2 : (processLoop ctx req now maxR rest (an + 1)
                        { result with
                          attempts := result.attempts ++ [attemptOf ctx req now ep an result] }
                        (mon.RecordOutcome ep.proc.name (ep.proc.process ctx req).code now)).1.attempts[i - 1]?
                      = some (attemptOf ctx req now ep an result) := by
                    rw [hnews, List.getElem?_append_left
                        (by simp only [List.length_append, List.length_cons,
                          List.length_nil, han]; omega),
                      List.getElem?_append_right
                        (by omega : result.attempts.length ≤ i - 1),
                      han]
                    have h0 : i - 1 - an = 0 := by omega
                    rw [h0]
                    simp
                  rw [h1, h2]
                · rw [if_neg hisucc] at hreason
                  exact hreason

/-- C8 — each attempt's routing reason is in the spec's bit-exact format:
attempt `i` is served by the `i`-th eligible entry (never circuit-open,
so "not degraded" means healthy); on the first attempt the reason is the
`primary`/`primary (degraded)` template over the entry's 2dp health
score, on later attempts the `fallback: <prev processor> returned
<prev code>` template, carrying the ` (degraded: health <2dp>)` suffix
exactly when the chosen entry is degraded (see `specRoutingReason`). -/
theorem routing_reason_formats (o : Orchestrator) (ctx : Ctx) (req : PaymentRequest)
    (now : Int) :
    ∀ (i : Nat) (a : Attempt),
      (o.ProcessPayment ctx req now).1.attempts[i]? = some a →
      ∃ ep,
        (getEligibleProcessors o.processors o.monitor now req.paymentMethod)[i]? = some ep
        ∧ ep.status ≠ Status.circuitOpen
        ∧ a.processorName = ep.proc.name
        ∧ a.response = ep.proc.process ctx req
        ∧ a.routingReason = specRoutingReason ep
            (if i = 0 then none
             else (o.ProcessPayment ctx req now).1.attempts[i - 1]?) := by
  unfold Orchestrator.ProcessPayment
  by_cases helig :
      (getEligibleProcessors o.processors o.monitor now req.paymentMethod).length = 0
  · rw [if_pos helig]
    intro i a hb
    simp at hb
  · rw [if_neg helig]
    intro i a hb
    rcases processLoop_reasons ctx req now o.maxRetries
      (getEligibleProcessors o.processors o.monitor now req.paymentMethod) 0
      ⟨req.transactionID, PaymentStatus.unset, [], none⟩ o.monitor rfl i a hb
      (Nat.zero_le i) with ⟨ep, hep, hname, hresp, hreason⟩
    have hopen : ep.status ≠ Status.circuitOpen := by
      have hmem : ep ∈ getEligibleProcessors o.processors o.monitor now req.paymentMethod := by
        rcases List.getElem?_eq_some.mp (by simpa using hep) with ⟨hlt, heq⟩
        rw [← heq]
        exact List.getElem_mem hlt
      exact (eligible_mem hmem).2
    refine ⟨ep, by simpa using hep, hopen, hname, hresp, ?_⟩
    rw [hreason]
    by_cases h0 : i = 0
    · rw [if_pos h0, if_pos h0]
      rfl
    · rw [if_neg h0, if_neg h0]

/-- A soft-decline-then-approve pool for the routing-reason witness. -/
def orchFallback : Orchestrator :=
  Orchestrator.New
    [deterministicProcessor "ProcA" ["card"] ResponseCode.softDecline,
     deterministicProcessor "ProcB" ["card"] ResponseCode.approved]
    NewMonitor

/-- C8 witness: on a two-attempt run, attempt 1's reason is the primary
template for eligible entry 0 and attempt 2's reason is the fallback
template relative to attempt 1. -/
theorem routing_reason_formats_witness :
    (1 < (orchFallback.ProcessPayment ⟨false⟩ reqCard 0).1.attempts.length)
    ∧ (∃ ep a,
        (getEligibleProcessors orchFallback.processors orchFallback.monitor 0 "card")[0]?
            = some ep
        ∧ (orchFallback.ProcessPayment ⟨false⟩ reqCard 0).1.attempts[0]? = some a
        ∧ a.routingReason = specRoutingReason ep none)
    ∧ (∃ ep a,
        (getEligibleProcessors orchFallback.processors orchFallback.monitor 0 "card")[1]?
            = some ep
        ∧ (orchFallback.ProcessPayment ⟨false⟩ reqCard 0).1.attempts[1]? = some a
        ∧ a.routingReason = specRoutingReason ep
            ((orchFallback.ProcessPayment ⟨false⟩ reqCard 0).1.attempts[0]?)) := by
  refine ⟨by decide, ?_, ?_⟩
  · rcases routing_reason_formats orchFallback ⟨false⟩ reqCard 0 0
        ((orchFallback.ProcessPayment ⟨false⟩ reqCard 0).1.attempts.get ⟨0, by decide⟩)
        (List.getElem?_eq_getElem (by decide)) with ⟨ep, hep, _, _, _, hreason⟩
    exact ⟨ep, _, hep, List.getElem?_eq_getElem (by decide), by simpa using hreason⟩
  · rcases routing_reason_formats orchFallback ⟨false⟩ reqCard 0 1
        ((orchFallback.ProcessPayment ⟨false⟩ reqCard 0).1.attempts.get ⟨1, by decide⟩)
        (List.getElem?_eq_getElem (by decide)) with ⟨ep, hep, _, _, _, hreason⟩
    exact ⟨ep, _, hep, List.getElem?_eq_getElem (by decide), by simpa using hreason⟩

end Nimbus
